import Mathlib

/-!
Verification development for the conversation-orchestration core of the
`ashron` interactive assistant (Go).  The Go sources are shallowly embedded
as executable Lean definitions:

* the streaming tool-call assembler (`processStreamNew` in
  `internal/tui/stream_simple.go`, mirrored by `processStream` in the
  repository's older TUI file);
* the approval gate (`checkToolApproval` / `isAutoApproved` in
  `internal/tui/simple_app.go`);
* the context compactor (`Compact`, `summarizeMessages` in
  `internal/context/manager.go`);
* the tool executor and execution continuation loop (`Execute` in
  `internal/tools/executor.go`, `executePendingTools` in
  `internal/tui/stream_simple.go`);
* the fallback tag extractor (`parseXMLToolCalls`, `extractParameters`).

Go maps are modelled as association lists in insertion order; wherever the
Go code *ranges over* a map (an operation whose iteration order is
unspecified and deliberately randomized by the Go runtime), the embedding
takes an explicit iteration-order function `pick` constrained to return a
permutation of the map's entries (`ValidPick`).  Go byte-strings are
modelled as Lean `String`s; all concrete inputs considered here are ASCII,
where Go's byte indexing and Lean's character indexing coincide.
-/

namespace Ashron

/-! ## Data model (`internal/api`, part of the repository's api package) -/

/-- `FunctionCall` from the api package: function name and the serialized
argument string. -/
structure FunctionCall where
  name : String
  arguments : String
deriving DecidableEq

/-- `ToolCall` from the api package: `{ID, Type, Function}`.  The same Go
struct is used both for finalized calls and for streamed tool-call
fragments (a fragment leaves unknown fields at their zero value `""`). -/
structure ToolCall where
  id : String
  type : String
  function : FunctionCall
deriving DecidableEq

/-- `Message` from the api package.  Go's absent optional fields are the
zero values `[]` and `""`. -/
structure Message where
  role : String
  content : String
  toolCalls : List ToolCall
  toolCallID : String
deriving DecidableEq

/-- `api.NewToolMessage(toolCallID, content)`. -/
def NewToolMessage (toolCallID content : String) : Message :=
  { role := "tool", content := content, toolCalls := [], toolCallID := toolCallID }

/-- `api.NewUserMessage(content)`. -/
def NewUserMessage (content : String) : Message :=
  { role := "user", content := content, toolCalls := [], toolCallID := "" }

/-- Delta payload of one streamed choice (`Choice.Delta`, itself a
`Message` in Go; only the fields the assembler reads are kept). -/
structure Delta where
  content : String
  toolCalls : List ToolCall
deriving DecidableEq

/-- One streamed `Choice`: `{Index, Delta, FinishReason}`. -/
structure Choice where
  index : Nat
  delta : Delta
  finishReason : String
deriving DecidableEq

/-- `api.StreamResponse`: the fields the assembler reads (usage frames are
consumed but do not influence assembly, so they are represented by
`choices := []`). -/
structure StreamResponse where
  choices : List Choice
deriving DecidableEq

/-- `api.StreamEvent`: `{Data *StreamResponse, Error error}`.  Only the
nil-ness of `Error` matters to the assembler's control flow. -/
structure StreamEvent where
  hasError : Bool
  data : Option StreamResponse
deriving DecidableEq

/-! ## Go map model

Go maps are embedded as association lists carrying their entries in
insertion order.  Lookup and write match Go map semantics; ranging over a
map is modelled separately via an explicit iteration order (`ValidPick`
below), because Go's `for range` over a map visits entries in an
unspecified, randomized order. -/

/-- `m[k]` (comma-ok lookup) on a Go map. -/
def goMapGet {α : Type} (m : List (Nat × α)) (k : Nat) : Option α :=
  (m.find? (fun p => p.1 == k)).map (fun p => p.2)

/-- `m[k] = v` on a Go map: replace in place if the key exists, otherwise
insert (new keys observe insertion order). -/
def goMapSet {α : Type} (m : List (Nat × α)) (k : Nat) (v : α) : List (Nat × α) :=
  if m.any (fun p => p.1 == k) then
    m.map (fun p => if p.1 == k then (k, v) else p)
  else
    m ++ [(k, v)]

/-! ## Tool-call assembler (`processStreamNew`, stream_simple.go) -/

/-- The assembler's mutable state inside `processStreamNew`:
`fullContent` (a strings.Builder), `toolCallsByIndex` and `toolCallArgs`
(two Go maps keyed by the composite slot `choice.Index*100 + i`).  The
presentation-only `output` builder and the incremental `m.messages`
history updates are elided: they duplicate `fullContent` and the finalized
calls. -/
structure AsmState where
  fullContent : String
  toolCallsByIndex : List (Nat × ToolCall)
  toolCallArgs : List (Nat × String)
deriving DecidableEq

/-- Initial assembler state at the top of `processStreamNew`. -/
def initState : AsmState := { fullContent := "", toolCallsByIndex := [], toolCallArgs := [] }

/-- An iteration order for ranging over a Go map of declared tool calls:
`pick m` is the order in which the runtime visits `m`'s entries.  Any
permutation of the entries is a possible Go behaviour. -/
def ValidPick (pick : List (Nat × ToolCall) → List (Nat × ToolCall)) : Prop :=
  ∀ m, List.Perm (pick m) m

/-- One possible iteration order: insertion order. -/
def idPick : List (Nat × ToolCall) → List (Nat × ToolCall) := fun m => m

/-- Another possible iteration order: reverse insertion order. -/
def revPick : List (Nat × ToolCall) → List (Nat × ToolCall) := fun m => m.reverse

/-- `toolCallArgs[idx].WriteString(frag)`, creating the builder when it is
nil (stream_simple.go lines 178-181 / 186-189 / 194-197). -/
def appendArg (m : List (Nat × String)) (k : Nat) (frag : String) : List (Nat × String) :=
  goMapSet m k ((goMapGet m k).getD "" ++ frag)

/-- Processing of one tool-call fragment `d` at composite slot `idx`
(stream_simple.go lines 162-209).  A fragment with a non-empty id declares
(or replaces) the call at `idx` and appends its argument text; an id-less
fragment with argument text appends to `idx`'s accumulator, falling back —
when `idx` is unseen — to the first already-declared call with the same
function name in the map-iteration order `pick`. -/
def stepToolCallDelta (pick : List (Nat × ToolCall) → List (Nat × ToolCall))
    (s : AsmState) (idx : Nat) (d : ToolCall) : AsmState :=
  if d.id ≠ "" then
    let tc : ToolCall :=
      { id := d.id, type := d.type,
        function := { name := d.function.name, arguments := d.function.arguments } }
    let byIndex := goMapSet s.toolCallsByIndex idx tc
    let args :=
      if d.function.arguments ≠ "" then appendArg s.toolCallArgs idx d.function.arguments
      else s.toolCallArgs
    { s with toolCallsByIndex := byIndex, toolCallArgs := args }
  else if d.function.arguments ≠ "" then
    if (goMapGet s.toolCallsByIndex idx).isSome then
      { s with toolCallArgs := appendArg s.toolCallArgs idx d.function.arguments }
    else
      match (pick s.toolCallsByIndex).find?
          (fun p => p.2.function.name == d.function.name) with
      | some p => { s with toolCallArgs := appendArg s.toolCallArgs p.1 d.function.arguments }
      | none => s
  else s

/-- `for i, deltaToolCall := range choice.Delta.ToolCalls` with
`idx := choice.Index*100 + i`. -/
def stepToolCallsFrom (pick : List (Nat × ToolCall) → List (Nat × ToolCall))
    (choiceIndex : Nat) : Nat → List ToolCall → AsmState → AsmState
  | _, [], s => s
  | i, d :: rest, s =>
      stepToolCallsFrom pick choiceIndex (i + 1) rest
        (stepToolCallDelta pick s (choiceIndex * 100 + i) d)

/-- Content accumulation (stream_simple.go lines 144-159; the incremental
history update mirrors `fullContent` and is elided). -/
def stepContent (s : AsmState) (content : String) : AsmState :=
  if content ≠ "" then { s with fullContent := s.fullContent ++ content } else s

/-- Turn-end finalization (stream_simple.go lines 219-261): for each
declared call, visited in the map-iteration order `pick`, replace its
argument field by the accumulation when the accumulator exists and is
non-empty, then default an empty argument string to "\x7b\x7d". -/
def finalizeToolCalls (pick : List (Nat × ToolCall) → List (Nat × ToolCall))
    (s : AsmState) : List ToolCall :=
  (pick s.toolCallsByIndex).map (fun p =>
    let tc := p.2
    let args1 :=
      match goMapGet s.toolCallArgs p.1 with
      | some a => if a.length > 0 then a else tc.function.arguments
      | none => tc.function.arguments
    let args2 := if args1 = "" then "\x7b\x7d" else args1
    { tc with function := { tc.function with arguments := args2 } })

/-- Outcome of `processStreamNew`: an `errorMsg` return, a `StreamOutput`
return from the finish-reason branch (content plus finalized tool calls,
which become `m.pendingToolCalls` when non-empty), or the `StreamOutput`
return after the stream ends without a finish reason (no finalization;
`m.pendingToolCalls` untouched). -/
inductive TurnResult where
  | errord : TurnResult
  | finished : String → List ToolCall → TurnResult
  | endedNoFinish : String → TurnResult
deriving DecidableEq

/-- The event loop of `processStreamNew` (stream_simple.go lines 104-295):
an error event aborts; a data event's first choice contributes content and
tool-call fragments; a finish reason of "stop" or "tool_calls" finalizes;
stream exhaustion returns whatever was accumulated. -/
def processStreamNew (pick : List (Nat × ToolCall) → List (Nat × ToolCall)) :
    List StreamEvent → AsmState → TurnResult
  | [], s => .endedNoFinish s.fullContent
  | e :: rest, s =>
    if e.hasError then .errord
    else
      match e.data with
      | none => processStreamNew pick rest s
      | some resp =>
        match resp.choices with
        | [] => processStreamNew pick rest s
        | choice :: _ =>
          let s1 := stepContent s choice.delta.content
          let s2 := stepToolCallsFrom pick choice.index 0 choice.delta.toolCalls s1
          if choice.finishReason = "stop" ∨ choice.finishReason = "tool_calls" then
            .finished s2.fullContent (finalizeToolCalls pick s2)
          else
            processStreamNew pick rest s2

/-! ### Stream shapes used in the claims -/

/-- A stream event carrying exactly one tool-call fragment at choice index
0, fragment position 0 — i.e. addressed to composite slot 0. -/
def mkToolEvent (d : ToolCall) : StreamEvent :=
  { hasError := false,
    data := some { choices := [{ index := 0, delta := { content := "", toolCalls := [d] }, finishReason := "" }] } }

/-- A terminal stream event with the given finish reason and no payload. -/
def finishEvent (reason : String) : StreamEvent :=
  { hasError := false,
    data := some { choices := [{ index := 0, delta := { content := "", toolCalls := [] }, finishReason := reason }] } }

/-- Concatenation, in arrival order, of the argument text of a fragment
sequence (empty fragments contribute nothing, so this is also the
concatenation of the non-empty argument fragments). -/
def concatArgs (frags : List ToolCall) : String :=
  frags.foldl (fun acc d => acc ++ d.function.arguments) ""

/-- An event that contributes neither content nor tool-call fragments
(it may still carry an error flag, a finish reason, or be a keep-alive /
usage frame with no choice). -/
def quietEvent (e : StreamEvent) : Bool :=
  !e.hasError &&
    (match e.data with
     | none => true
     | some resp =>
       match resp.choices with
       | [] => true
       | c :: _ => c.delta.content == "" && c.delta.toolCalls.isEmpty)

/-- Every tool-call fragment contributed by this event carries an id
(so the name-based fallback scan is never consulted). -/
def eventAllIdBearing (e : StreamEvent) : Bool :=
  match e.data with
  | none => true
  | some resp =>
    match resp.choices with
    | [] => true
    | c :: _ => c.delta.toolCalls.all (fun d => !(d.id == ""))

/-- Agreement of two turn outcomes up to the (unspecified) emission order
of the finalized tool-call list. -/
def ResultPerm : TurnResult → TurnResult → Prop
  | .errord, .errord => True
  | .finished c1 t1, .finished c2 t2 => c1 = c2 ∧ List.Perm t1 t2
  | .endedNoFinish c1, .endedNoFinish c2 => c1 = c2
  | _, _ => False

/-! ## Approval gate (`checkToolApproval` / `isAutoApproved`,
internal/tui/simple_app.go lines 471-497) -/

/-- `isAutoApproved(toolName)`: linear scan of the configured
`Tools.AutoApprove` allow-list. -/
def isAutoApproved (autoApprove : List String) (toolName : String) : Bool :=
  autoApprove.any (fun approved => approved == toolName)

/-- `checkToolApproval`'s `needsApproval` computation: true iff some
pending call's function name is not allow-listed.  When true the model
blocks (`waitingForApproval := true`, one TAB/accept or cancel decision
resolves the whole batch); when false it auto-approves the whole batch
(`approvePendingTools`). -/
def checkToolApprovalNeedsApproval (autoApprove : List String)
    (pending : List ToolCall) : Bool :=
  pending.any (fun tc => !isAutoApproved autoApprove tc.function.name)

/-! ## Context compactor (`internal/context/manager.go`) -/

/-- The fields of `config.ContextConfig` that `Compact` reads.  The
remaining fields (`MaxTokens`, the float32 `CompactionRatio`,
`AutoCompact`) are consulted only by the caller's compaction trigger, not
by `Compact` itself. -/
structure ContextConfig where
  maxMessages : Nat
deriving DecidableEq

/-- The digit loop of the repository's `intToString` helper
(`for n > 0 { digit := n % 10; result = string('0'+digit) + result; n /= 10 }`),
written with structural fuel so it evaluates by kernel reduction; the fuel
`n` itself always suffices since `n / 10 < n` for `n > 0`. -/
def digitLoop : Nat → Nat → String
  | 0, _ => ""
  | fuel + 1, n =>
    if n = 0 then ""
    else digitLoop fuel (n / 10) ++ String.singleton (Char.ofNat (48 + n % 10))

/-- `intToString(n)` from manager.go (its inputs here are counts, hence
non-negative, so the `negative` branch never fires and a `Nat` domain is
faithful). -/
def intToString (n : Nat) : String :=
  if n = 0 then "0" else digitLoop n n

/-- Excerpt of a user message in the summary: `msg.Content[:100] + "..."`
when longer than 100 (Go slices bytes; on the ASCII contents considered
here byte and character counts coincide). -/
def excerpt (content : String) : String :=
  if content.length > 100 then content.take 100 ++ "..." else content

/-- The counting/excerpting loop of `summarizeMessages` (manager.go lines
97-121): returns the final user/assistant/tool-call counts and the
accumulated excerpt text. -/
def summarizeLoop : List Message → Nat → Nat → Nat → String → Nat × Nat × Nat × String
  | [], u, a, t, acc => (u, a, t, acc)
  | msg :: rest, u, a, t, acc =>
    if msg.role = "user" then
      let u' := u + 1
      let acc' := if u' ≤ 3 then acc ++ "- User: " ++ excerpt msg.content ++ "\n" else acc
      summarizeLoop rest u' a t acc'
    else if msg.role = "assistant" then
      let t' := if msg.toolCalls.length > 0 then t + msg.toolCalls.length else t
      summarizeLoop rest u (a + 1) t' acc
    else
      summarizeLoop rest u a t acc

/-- `summarizeMessages(messages)` (manager.go lines 85-137): `nil` on an
empty slice, otherwise one synthesized system message carrying excerpts of
the first few user messages and role statistics. -/
def summarizeMessages (messages : List Message) : Option Message :=
  if messages.length = 0 then none
  else
    let r := summarizeLoop messages 0 0 0 ""
    let body :=
      "Previous conversation summary:\n" ++ r.2.2.2 ++
      "\n" ++ "Summary statistics:\n" ++ "- " ++
      String.intercalate ", "
        [intToString r.1 ++ " user messages",
         intToString r.2.1 ++ " assistant responses",
         intToString r.2.2.1 ++ " tool calls executed"]
    some { role := "system", content := body, toolCalls := [], toolCallID := "" }

/-- `Compact(messages)` (manager.go lines 53-82): identity on lists of
length ≤ 3; otherwise keep message 0, append the summary of
`messages[1 : len/2]`, then append the tail starting at
`max(len/2, len - MaxMessages/2)` with tool-role messages dropped.
(Go computes `len(messages) - MaxMessages/2` in `int`; a negative value
loses the comparison against `len/2` exactly as the truncated `Nat`
subtraction used here does.) -/
def Compact (cfg : ContextConfig) (messages : List Message) : List Message :=
  if messages.length ≤ 3 then messages
  else
    let compacted := messages.take 1
    let compacted :=
      match summarizeMessages ((messages.drop 1).take (messages.length / 2 - 1)) with
      | some s => compacted ++ [s]
      | none => compacted
    let recentStart :=
      if messages.length / 2 < messages.length - cfg.maxMessages / 2 then
        messages.length - cfg.maxMessages / 2
      else
        messages.length / 2
    compacted ++ (messages.drop recentStart).filter (fun msg => msg.role ≠ "tool")

/-! ## Tool executor (`internal/tools/executor.go`) and execution
continuation loop (`executePendingTools`, stream_simple.go lines 298-344) -/

/-- `api.ToolResult`: `{ToolCallID, Output, Error}`; only the nil-ness of
`Error` is observable here. -/
structure ToolResult where
  toolCallID : String
  output : String
  isError : Bool
deriving DecidableEq

/-- The names registered in the executor's `toolInfoByName` map, from
`GetAllTools()` (internal/tools/tool_info.go). -/
def knownToolNames : List String :=
  ["read_file", "write_file", "execute_command", "list_directory",
   "list_tools", "git_grep", "git_ls_files"]

/-- `Executor.Execute(toolCall)` (executor.go lines 32-74), parameterized
by the external collaborators it invokes: `unmarshal` models
`encoding/json`'s `Unmarshal` into `map[string]interface{}` (`.error e`
carries the error's text), and `callback` models the per-tool callback
table's side-effecting entries.  Argument-parse failures and unknown tool
names are returned as the result's own `Output` text; the function never
panics. -/
def Execute {ArgsMap : Type} (unmarshal : String → Except String ArgsMap)
    (callback : String → String → ArgsMap → ToolResult)
    (tc : ToolCall) : ToolResult :=
  match unmarshal tc.function.arguments with
  | .error e =>
    { toolCallID := tc.id,
      output := "Error: Failed to parse arguments - " ++ e,
      isError := true }
  | .ok args =>
    if knownToolNames.contains tc.function.name then
      callback tc.function.name tc.id args
    else
      { toolCallID := tc.id,
        output := "Error: Unknown tool " ++ "'" ++ tc.function.name ++ "'",
        isError := true }

/-- The history-appending loop of `executePendingTools`: for each pending
call, in declaration order, execute it and append one tool-role message
carrying the call's id and the result's output (display truncation
elided).  Returns the updated history. -/
def executePendingToolsLoop (exec : ToolCall → ToolResult) :
    List ToolCall → List Message → List Message
  | [], msgs => msgs
  | tc :: rest, msgs =>
    executePendingToolsLoop exec rest (msgs ++ [NewToolMessage tc.id (exec tc).output])

/-! ## Fallback tag extractor (`parseXMLToolCalls` / `extractParameters`)

Go's RE2 patterns are embedded as explicit character scanners over the
content.  The patterns involved — `<function=(\w+)>(.*?)</function>`,
`<parameter=(\w+)>(.*?)</parameter>`, `<parameter=command>(.*?)</parameter>`
and `<tool_call>.*?<function>(\w+)</function>.*?</tool_call>` — use `\w+`
(ASCII word characters, greedy, at least one) and lazy `(.*?)` whose `.`
does not cross a newline; `FindAll…` collects successive non-overlapping
leftmost matches, resuming after each match's end. -/

/-- The character code of an opening curly brace. -/
def lbrace : Char := Char.ofNat 123

/-- The character code of a closing curly brace. -/
def rbrace : Char := Char.ofNat 125

/-- RE2 `\w`: ASCII letters, digits and underscore. -/
def isWordChar (c : Char) : Bool := c.isAlphanum || c == '_'

/-- Does `s` start with the literal `pat`? -/
def startsWithChars : List Char → List Char → Bool
  | _, [] => true
  | [], _ :: _ => false
  | c :: cs, p :: ps => c == p && startsWithChars cs ps

/-- Split off the maximal leading run of word characters (greedy `\w*`). -/
def takeWord : List Char → List Char × List Char
  | [] => ([], [])
  | c :: cs =>
    if isWordChar c then
      let r := takeWord cs
      (c :: r.1, r.2)
    else ([], c :: cs)

/-- Lazy capture `(.*?)closeTag`: the shortest run of non-newline
characters followed by the literal `closeTag`.  Returns the capture and
the remainder after the close tag, or `none` when the close tag does not
occur before a newline or the end. -/
def scanLazy (closeTag : List Char) : List Char → Option (List Char × List Char)
  | [] => none
  | c :: cs =>
    if startsWithChars (c :: cs) closeTag then
      some ([], (c :: cs).drop closeTag.length)
    else if c == '\n' then none
    else
      match scanLazy closeTag cs with
      | some r => some (c :: r.1, r.2)
      | none => none

/-- Match attempt, anchored at the start of `s`, of
`openLit(\w+)>(.*?)closeTag` (the shape of both the `<function=` and the
`<parameter=` patterns).  Returns the captured name, the captured body
and the remainder after the match. -/
def tryEqTagAt (openLit closeTag s : List Char) :
    Option (List Char × List Char × List Char) :=
  if startsWithChars s openLit then
    let r := takeWord (s.drop openLit.length)
    match r.1, r.2 with
    | [], _ => none
    | name@(_ :: _), '>' :: rest =>
      match scanLazy closeTag rest with
      | some c => some (name, c.1, c.2)
      | none => none
    | _ :: _, _ => none
  else none

/-- `FindAllStringSubmatch` for `openLit(\w+)>(.*?)closeTag`: successive
non-overlapping leftmost matches, advancing one character on failure.
The fuel (always instantiated with the content length) bounds the scan;
every step consumes at least one character. -/
def findEqTagMatches (openLit closeTag : List Char) :
    Nat → List Char → List (List Char × List Char)
  | 0, _ => []
  | _, [] => []
  | fuel + 1, s@(_ :: rest) =>
    match tryEqTagAt openLit closeTag s with
    | some (name, body, remaining) =>
      (name, body) :: findEqTagMatches openLit closeTag fuel remaining
    | none => findEqTagMatches openLit closeTag fuel rest

/-- First match of `<parameter=command>(.*?)</parameter>`
(`cmdPattern.FindStringSubmatch`): scan for the literal open tag with a
lazy capture to the close tag. -/
def findFirstCmdParam : List Char → Option (List Char)
  | [] => none
  | s@(_ :: rest) =>
    if startsWithChars s "<parameter=command>".data then
      match scanLazy "</parameter>".data (s.drop 19) with
      | some r => some r.1
      | none => findFirstCmdParam rest
    else findFirstCmdParam rest

/-- Anchored tail of the `<tool_call>` pattern: lazy-scan (not crossing a
newline) for the earliest `<function>(\w+)</function>` group, returning
the name and the remainder after it. -/
def scanForFunctionTag : List Char → Option (List Char × List Char)
  | [] => none
  | s@(c :: cs) =>
    (match
        (if startsWithChars s "<function>".data then
          let r := takeWord (s.drop 10)
          match r.1 with
          | [] => none
          | name@(_ :: _) =>
            if startsWithChars r.2 "</function>".data then
              some (name, r.2.drop 11)
            else none
        else none : Option (List Char × List Char)) with
     | some r => some r
     | none => if c == '\n' then none else scanForFunctionTag cs)

/-- Match attempt, anchored at the start of `s`, of
`<tool_call>.*?<function>(\w+)</function>.*?</tool_call>`. -/
def tryToolCallAt (s : List Char) : Option (List Char × List Char) :=
  if startsWithChars s "<tool_call>".data then
    match scanForFunctionTag (s.drop 11) with
    | some (name, rest) =>
      match scanLazy "</tool_call>".data rest with
      | some r => some (name, r.2)
      | none => none
    | none => none
  else none

/-- `toolCallPattern.FindAllStringSubmatch`: successive non-overlapping
leftmost matches of the `<tool_call>` wrapper pattern (only the captured
function name is used by the code). -/
def findToolCallMatches : Nat → List Char → List (List Char)
  | 0, _ => []
  | _, [] => []
  | fuel + 1, s@(_ :: rest) =>
    match tryToolCallAt s with
    | some (name, remaining) => name :: findToolCallMatches fuel remaining
    | none => findToolCallMatches fuel rest

/-- ASCII subset of `unicode.IsSpace`, as used by `strings.TrimSpace`
(all contents considered here are ASCII). -/
def isSpaceGo (c : Char) : Bool :=
  c == ' ' || c == '\t' || c == '\n' || c == '\r' ||
  c == Char.ofNat 11 || c == Char.ofNat 12

/-- `strings.TrimSpace`. -/
def trimSpaceChars (s : List Char) : List Char :=
  ((s.dropWhile isSpaceGo).reverse.dropWhile isSpaceGo).reverse

/-- One hexadecimal digit (lower case), for `\u00XX` escapes. -/
def hexDigit (n : Nat) : Char :=
  if n < 10 then Char.ofNat (48 + n) else Char.ofNat (87 + (n - 10))

/-- `encoding/json` string escaping with the default HTML escaping
(`"`, `\`, newline/carriage-return/tab, other control characters, and the
HTML-significant `<`, `>`, `&` as `\u00xx` sequences). -/
def jsonEscapeChar (c : Char) : List Char :=
  if c == '"' then ['\\', '"']
  else if c == '\\' then ['\\', '\\']
  else if c == '\n' then ['\\', 'n']
  else if c == '\r' then ['\\', 'r']
  else if c == '\t' then ['\\', 't']
  else if c == '<' then "\\u003c".data
  else if c == '>' then "\\u003e".data
  else if c == '&' then "\\u0026".data
  else if c.toNat < 32 then
    '\\' :: 'u' :: '0' :: '0' :: [hexDigit (c.toNat / 16), hexDigit (c.toNat % 16)]
  else [c]

/-- A JSON string literal for `s`. -/
def jsonQuote (s : String) : List Char :=
  '"' :: (s.data.flatMap jsonEscapeChar) ++ ['"']

/-- Insertion of a key into a key-sorted association list (Go's
`json.Marshal` emits map keys in sorted order). -/
def insertSortedKV (kv : String × String) : List (String × String) → List (String × String)
  | [] => [kv]
  | p :: rest => if kv.1 < p.1 then kv :: p :: rest else p :: insertSortedKV kv rest

/-- Sort an association list by key. -/
def sortByKey (l : List (String × String)) : List (String × String) :=
  l.foldr insertSortedKV []

/-- `params[key] = value` on a Go `map[string]…` (later writes to the same
key overwrite). -/
def strMapSet (m : List (String × String)) (k v : String) : List (String × String) :=
  if m.any (fun p => p.1 == k) then
    m.map (fun p => if p.1 == k then (k, v) else p)
  else m ++ [(k, v)]

/-- `json.Marshal` of a Go map from strings to string values: keys in
sorted order, each entry `"k":"v"`, wrapped in braces. -/
def marshalStrMap (kvs : List (String × String)) : String :=
  ⟨lbrace ::
    (String.intercalate ","
      ((sortByKey kvs).map
        (fun kv => ⟨jsonQuote kv.1 ++ ':' :: jsonQuote kv.2⟩))).data
    ++ [rbrace]⟩

/-- `strings.Split(content, "\n")`. -/
def splitLines : List Char → List (List Char)
  | [] => [[]]
  | c :: rest =>
    let r := splitLines rest
    if c == '\n' then [] :: r
    else
      match r with
      | l :: ls => (c :: l) :: ls
      | [] => [[c]]

/-- The key-value line collection of `extractParameters`: for each line,
split at the first colon when its index is positive, trim both sides, and
store non-empty pairs. -/
def collectKVLines (params : List (String × String)) :
    List (List Char) → List (String × String)
  | [] => params
  | line :: rest =>
    let l := trimSpaceChars line
    let params' :=
      match l.findIdx? (fun c => c == ':') with
      | some i =>
        if i > 0 then
          let key := trimSpaceChars (l.take i)
          let value := trimSpaceChars (l.drop (i + 1))
          if key ≠ [] ∧ value ≠ [] then strMapSet params ⟨key⟩ ⟨value⟩ else params
        else params
      | none => params
    collectKVLines params' rest

/-- `extractParameters(content)` (the repository's fallback parameter
extraction): pass well-formed braced content through unchanged, else
collect `<parameter=…>` tags, else colon-separated `key: value` lines,
else wrap the remaining text as the single `value` parameter, else the
empty object. -/
def extractParameters (content0 : String) : String :=
  let content := trimSpaceChars content0.data
  if (content.head? == some lbrace) && (content.getLast? == some rbrace) then
    ⟨content⟩
  else
    let tagMatches :=
      findEqTagMatches "<parameter=".data "</parameter>".data content.length content
    let params := tagMatches.foldl
      (fun m kv => strMapSet m ⟨kv.1⟩ ⟨trimSpaceChars kv.2⟩) []
    if params ≠ [] then marshalStrMap params
    else
      let params := collectKVLines [] (splitLines content)
      if params ≠ [] then marshalStrMap params
      else if content ≠ [] then marshalStrMap [("value", ⟨content⟩)]
      else ⟨[lbrace, rbrace]⟩

/-- `parseXMLToolCalls(content)`: recover tool calls from the
`<function=name>…</function>` pseudo-syntax (with special handling for
`execute_command`) and from the `<tool_call>` wrapper shape, assigning
locally-unique ids `call_i` / `tool_i`. -/
def parseXMLToolCalls (content : String) : List ToolCall :=
  let cs := content.data
  let fnMatches := findEqTagMatches "<function=".data "</function>".data cs.length cs
  let calls1 := fnMatches.enum.map (fun im =>
    let i := im.1
    let functionName : String := ⟨im.2.1⟩
    let paramsContent : String := ⟨trimSpaceChars im.2.2⟩
    if functionName = "execute_command" then
      let args :=
        match findFirstCmdParam paramsContent.data with
        | some cap => [("command", (⟨trimSpaceChars cap⟩ : String))]
        | none => [("command", paramsContent)]
      { id := "call_" ++ intToString i, type := "function",
        function := { name := functionName, arguments := marshalStrMap args } }
    else
      { id := "call_" ++ intToString i, type := "function",
        function :=
          { name := functionName,
            arguments :=
              if paramsContent ≠ "" then extractParameters paramsContent
              else ⟨[lbrace, rbrace]⟩ } })
  let tcMatches := findToolCallMatches cs.length cs
  let calls2 : List ToolCall := tcMatches.enum.map (fun im =>
    let i := im.1
    let paramMatches :=
      findEqTagMatches "<parameter=".data "</parameter>".data cs.length cs
    let params := paramMatches.foldl
      (fun m kv => strMapSet m ⟨kv.1⟩ ⟨trimSpaceChars kv.2⟩) []
    { id := "tool_" ++ intToString i, type := "function",
      function :=
        { name := ⟨im.2⟩,
          arguments :=
            if params.length > 0 then marshalStrMap params
            else ⟨[lbrace, rbrace]⟩ } })
  calls1 ++ calls2

/-! ## General helper lemmas -/

/-- A string of length zero is the empty string. -/
lemma string_len_zero {s : String} (h : s.length = 0) : s = "" := by
  cases s with
  | mk data =>
    cases data with
    | nil => rfl
    | cons c cs => simp [String.length] at h

/-- A non-empty string has positive length. -/
lemma string_len_pos {s : String} (h : s ≠ "") : 0 < s.length := by
  rcases Nat.eq_zero_or_pos s.length with h0 | hp
  · exact absurd (string_len_zero h0) h
  · exact hp

/-- String concatenation is empty iff both halves are. -/
lemma string_append_eq_empty {a b : String} : a ++ b = "" ↔ a = "" ∧ b = "" := by
  constructor
  · intro h
    have hl := congrArg String.length h
    simp only [String.length_append] at hl
    have hz : ("" : String).length = 0 := rfl
    have ha : a.length = 0 := by omega
    have hb : b.length = 0 := by omega
    exact ⟨string_len_zero ha, string_len_zero hb⟩
  · rintro ⟨rfl, rfl⟩
    rfl

end Ashron

namespace Ashron

/-! ## Claim theorems: fallback parser, approval gate, compactor identity -/

/-- Claim C7: for the input text
`<function=execute_command><parameter=command>ls -la</parameter></function>`,
the fallback tag parser returns exactly one ToolCall whose function name
is `execute_command`, whose id is the locally-unique `call_0`, and whose
argument string is the canonical serialization of the mapping
with the single entry command ↦ ls -la (hence it parses to the same
mapping as the expected object). -/
theorem fallback_tag_parse_execute_command :
    parseXMLToolCalls
        "<function=execute_command><parameter=command>ls -la</parameter></function>" =
      [{ id := "call_0", type := "function",
         function := { name := "execute_command",
                       arguments := "\x7b\"command\":\"ls -la\"\x7d" } }] := by
  rfl

/-- Claim C4: the approval gate auto-approves a pending batch iff every
pending call's function name is in the configured allow-list
(`needsApproval = false` exactly then; the blocking path surfaces the
whole batch behind a single accept/reject decision); and for the concrete
batch `read_file`, `execute_command` against allow-list `["read_file"]`
the gate blocks. -/
theorem approval_gate_allowlist :
    (∀ (autoApprove : List String) (pending : List ToolCall),
      checkToolApprovalNeedsApproval autoApprove pending = false ↔
        ∀ tc ∈ pending, isAutoApproved autoApprove tc.function.name = true) ∧
    checkToolApprovalNeedsApproval ["read_file"]
      [{ id := "call_a", type := "function",
         function := { name := "read_file", arguments := "\x7b\x7d" } },
       { id := "call_b", type := "function",
         function := { name := "execute_command", arguments := "\x7b\x7d" } }] = true := by
  constructor
  · intro autoApprove pending
    unfold checkToolApprovalNeedsApproval
    rw [List.any_eq_false]
    constructor
    · intro h tc htc
      have := h tc htc
      simpa using this
    · intro h tc htc
      simpa using h tc htc
  · decide

/-- Claim C10: `Compact` is the identity on every message list of length
at most 3 — it returns the input unchanged for every configuration, in
particular regardless of how large the estimated token usage is, since
`Compact` never consults the token estimate. -/
theorem compact_identity_on_short_lists (cfg : ContextConfig)
    (messages : List Message) (h : messages.length ≤ 3) :
    Compact cfg messages = messages := by
  unfold Compact
  rw [if_pos h]

/-- Witness for Claim C10 at a concrete two-message list. -/
theorem compact_identity_on_short_lists_witness :
    Compact ⟨50⟩ [NewUserMessage "hello", NewUserMessage "world"] =
      [NewUserMessage "hello", NewUserMessage "world"] :=
  compact_identity_on_short_lists ⟨50⟩ _ (by decide)

/-! ## Compactor helper lemmas -/

/-- In the compacting branch the summarizer input is non-empty, so a
summary message is always synthesized. -/
lemma summarizeMessages_of_long (messages : List Message)
    (h : ¬ messages.length ≤ 3) :
    ∃ s, summarizeMessages ((messages.drop 1).take (messages.length / 2 - 1)) = some s := by
  unfold summarizeMessages
  rw [if_neg]
  · exact ⟨_, rfl⟩
  · simp only [List.length_take, List.length_drop]
    omega

/-- `Compact` keeps message 0 unchanged at the head of its output. -/
lemma Compact_head? (cfg : ContextConfig) (messages : List Message)
    (h : messages ≠ []) :
    (Compact cfg messages).head? = messages.head? := by
  unfold Compact
  by_cases h3 : messages.length ≤ 3
  · rw [if_pos h3]
  · rw [if_neg h3]
    obtain ⟨s, hs⟩ := summarizeMessages_of_long messages h3
    rw [hs]
    cases messages with
    | nil => exact absurd rfl h
    | cons m rest => simp

/-- Length of the compacted list in the compacting branch: at most two
synthesized prefix messages plus the retained tail, which starts at
`max(len/2, len − MaxMessages/2)`. -/
lemma Compact_length_bounds (cfg : ContextConfig) (messages : List Message)
    (h : ¬ messages.length ≤ 3) :
    (Compact cfg messages).length ≤ 2 + cfg.maxMessages / 2 ∧
    (Compact cfg messages).length ≤ messages.length := by
  unfold Compact
  rw [if_neg h]
  obtain ⟨s, hs⟩ := summarizeMessages_of_long messages h
  rw [hs]
  have htake : (messages.take 1).length = 1 := by
    simp only [List.length_take]
    omega
  split_ifs with hrs
  · have hf := List.length_filter_le (fun msg => decide (msg.role ≠ "tool"))
      (messages.drop (messages.length - cfg.maxMessages / 2))
    simp only [List.length_drop] at hf
    simp only [List.length_append, htake, List.length_singleton]
    omega
  · have hf := List.length_filter_le (fun msg => decide (msg.role ≠ "tool"))
      (messages.drop (messages.length / 2))
    simp only [List.length_drop] at hf
    simp only [List.length_append, htake, List.length_singleton]
    omega

/-- `Compact` never grows the history. -/
lemma Compact_length_le (cfg : ContextConfig) (messages : List Message) :
    (Compact cfg messages).length ≤ messages.length := by
  by_cases h3 : messages.length ≤ 3
  · rw [compact_identity_on_short_lists cfg messages h3]
  · exact (Compact_length_bounds cfg messages h3).2

/-! ## Claim theorems: compactor -/

/-- Claim C5: `Compact` never drops the system preamble — element 0 of the
output is the unchanged element 0 of the input — and on any 60-message
history with `max_messages = 50` the compacted history has at most 50
messages (in fact at most `2 + 50/2 = 27`). -/
theorem compact_preserves_preamble_and_budget :
    (∀ (cfg : ContextConfig) (messages : List Message), messages ≠ [] →
        (Compact cfg messages).head? = messages.head?) ∧
    (∀ messages : List Message, messages.length = 60 →
        (Compact ⟨50⟩ messages).length ≤ 50) := by
  constructor
  · exact Compact_head?
  · intro messages h60
    have h3 : ¬ messages.length ≤ 3 := by omega
    have hb := (Compact_length_bounds ⟨50⟩ messages h3).1
    have h50 : (⟨50⟩ : ContextConfig).maxMessages = 50 := rfl
    omega

/-- A fixed 60-message history used as the concrete compaction input. -/
def demo60 : List Message := List.replicate 60 (NewUserMessage "hi")

/-- Witness for Claim C5 at the concrete 60-message history. -/
theorem compact_preserves_preamble_and_budget_witness :
    (Compact ⟨50⟩ demo60).head? = demo60.head? ∧ (Compact ⟨50⟩ demo60).length ≤ 50 :=
  ⟨compact_preserves_preamble_and_budget.1 ⟨50⟩ demo60 (by decide),
   compact_preserves_preamble_and_budget.2 demo60 (by decide)⟩

/-- Counterexample to Claim C6 as stated: compaction is not idempotent at
the first pass's output.  On a 60-message history with
`max_messages = 50` the first pass yields 27 messages, but a second pass
shrinks that output further to 16 messages — so the second pass's output
does not have the same length as its input. -/
theorem compact_not_idempotent_counterexample :
    (Compact ⟨50⟩ demo60).length = 27 ∧
    (Compact ⟨50⟩ (Compact ⟨50⟩ demo60)).length = 16 ∧
    (16 : Nat) ≠ 27 :=
  ⟨rfl, rfl, by decide⟩

/-- Claim C6 (amended): a second application of `Compact` to the first
pass's output never grows the list but may shrink it further (equality of
lengths fails in general, see the counterexample); message 0 is
byte-identical before and after both passes. -/
theorem compact_second_pass_monotone (cfg : ContextConfig) (messages : List Message) :
    (Compact cfg (Compact cfg messages)).length ≤ (Compact cfg messages).length ∧
    (messages ≠ [] →
      (Compact cfg (Compact cfg messages)).head? = messages.head?) := by
  refine ⟨Compact_length_le cfg (Compact cfg messages), ?_⟩
  intro h
  have h1 : (Compact cfg messages).head? = messages.head? := Compact_head? cfg messages h
  have hne : Compact cfg messages ≠ [] := by
    intro hnil
    rw [hnil] at h1
    cases messages with
    | nil => exact absurd rfl h
    | cons m rest => simp at h1
  rw [Compact_head? cfg (Compact cfg messages) hne, h1]

/-- Witness for Claim C6 (amended) at the concrete 60-message history. -/
theorem compact_second_pass_monotone_witness :
    (Compact ⟨50⟩ (Compact ⟨50⟩ demo60)).length ≤ (Compact ⟨50⟩ demo60).length ∧
    (Compact ⟨50⟩ (Compact ⟨50⟩ demo60)).head? = demo60.head? :=
  ⟨(compact_second_pass_monotone ⟨50⟩ demo60).1,
   (compact_second_pass_monotone ⟨50⟩ demo60).2 (by decide)⟩

/-! ## Claim theorems: executor and continuation loop -/

/-- The execution loop appends exactly one tool-role message per pending
call, in declaration order, carrying the call's id and its result's
output text. -/
lemma executePendingToolsLoop_eq (exec : ToolCall → ToolResult) :
    ∀ (pending : List ToolCall) (messages : List Message),
      executePendingToolsLoop exec pending messages =
        messages ++ pending.map (fun tc => NewToolMessage tc.id (exec tc).output) := by
  intro pending
  induction pending with
  | nil => intro messages; simp [executePendingToolsLoop]
  | cons tc rest ih =>
    intro messages
    rw [executePendingToolsLoop, ih, List.map_cons, List.append_assoc]
    rfl

/-- Claim C9: on an unparseable argument string the executor returns a
`ToolResult` whose output reports the parse error (it does not panic); on
an unknown tool name it returns a result reporting the unknown tool; and
the execution loop still appends one tool-role message per call —
carrying each call's id — and continues through the whole batch,
whatever each call's result was. -/
theorem executor_reports_errors_and_loop_continues :
    (∀ (ArgsMap : Type) (unmarshal : String → Except String ArgsMap)
        (callback : String → String → ArgsMap → ToolResult)
        (tc : ToolCall) (e : String),
      unmarshal tc.function.arguments = .error e →
      Execute unmarshal callback tc =
        { toolCallID := tc.id,
          output := "Error: Failed to parse arguments - " ++ e,
          isError := true }) ∧
    (∀ (ArgsMap : Type) (unmarshal : String → Except String ArgsMap)
        (callback : String → String → ArgsMap → ToolResult)
        (tc : ToolCall) (args : ArgsMap),
      unmarshal tc.function.arguments = .ok args →
      knownToolNames.contains tc.function.name = false →
      Execute unmarshal callback tc =
        { toolCallID := tc.id,
          output := "Error: Unknown tool " ++ "'" ++ tc.function.name ++ "'",
          isError := true }) ∧
    (∀ (exec : ToolCall → ToolResult) (pending : List ToolCall) (messages : List Message),
      executePendingToolsLoop exec pending messages =
        messages ++ pending.map (fun tc => NewToolMessage tc.id (exec tc).output)) := by
  refine ⟨?_, ?_, ?_⟩
  · intro ArgsMap unmarshal callback tc e he
    unfold Execute
    rw [he]
  · intro ArgsMap unmarshal callback tc args hok hunknown
    unfold Execute
    rw [hok]
    simp only [hunknown, Bool.false_eq_true, if_false]
  · exact fun exec => executePendingToolsLoop_eq exec

/-- A concrete pending call whose accumulated arguments fail to parse. -/
def tcBadArgs : ToolCall :=
  { id := "call_bad", type := "function",
    function := { name := "read_file", arguments := "not json" } }

/-- A concrete pending call naming a tool absent from the registry. -/
def tcUnknown : ToolCall :=
  { id := "call_unknown", type := "function",
    function := { name := "mystery_tool", arguments := "\x7b\x7d" } }

/-- Witness for Claim C9: a failing unmarshal yields the parse-error
result text; an unknown tool yields the unknown-tool result text; and the
loop over both calls appends exactly one tool message per call, in order,
with the matching ids. -/
theorem executor_reports_errors_and_loop_continues_witness :
    Execute (fun _ => (.error "invalid character" : Except String Unit))
        (fun _ _ _ => { toolCallID := "", output := "", isError := false }) tcBadArgs =
      { toolCallID := "call_bad",
        output := "Error: Failed to parse arguments - invalid character",
        isError := true } ∧
    Execute (fun _ => (.ok () : Except String Unit))
        (fun _ _ _ => { toolCallID := "", output := "", isError := false }) tcUnknown =
      { toolCallID := "call_unknown",
        output := "Error: Unknown tool " ++ "'" ++ "mystery_tool" ++ "'",
        isError := true } ∧
    executePendingToolsLoop
        (fun tc => { toolCallID := tc.id, output := "out-" ++ tc.id, isError := false })
        [tcBadArgs, tcUnknown] [] =
      [NewToolMessage "call_bad" "out-call_bad",
       NewToolMessage "call_unknown" "out-call_unknown"] := by
  refine ⟨?_, ?_, ?_⟩
  · exact executor_reports_errors_and_loop_continues.1 Unit _ _ tcBadArgs
      "invalid character" rfl
  · exact executor_reports_errors_and_loop_continues.2.1 Unit _ _ tcUnknown () rfl
      (by decide)
  · rw [executor_reports_errors_and_loop_continues.2.2]
    rfl

/-! ## Assembler helper lemmas -/

/-- The accumulator map of a run whose fragments all address slot 0:
absent entry while nothing has been appended, one entry otherwise. -/
def argsEntry (acc : String) : List (Nat × String) :=
  if acc = "" then [] else [(0, acc)]

/-- Processing an event that carries one slot-0 fragment steps the state
by `stepToolCallDelta` and continues. -/
lemma processStreamNew_cons_tool (pick : List (Nat × ToolCall) → List (Nat × ToolCall))
    (d : ToolCall) (rest : List StreamEvent) (s : AsmState) :
    processStreamNew pick (mkToolEvent d :: rest) s =
      processStreamNew pick rest (stepToolCallDelta pick s 0 d) := rfl

/-- A terminal `tool_calls` event finalizes the current state. -/
lemma processStreamNew_finish (pick : List (Nat × ToolCall) → List (Nat × ToolCall))
    (s : AsmState) :
    processStreamNew pick [finishEvent "tool_calls"] s =
      .finished s.fullContent (finalizeToolCalls pick s) := rfl

/-- A run over slot-0 fragment events folds `stepToolCallDelta` over the
fragments. -/
lemma processStreamNew_toolEvents (pick : List (Nat × ToolCall) → List (Nat × ToolCall))
    (frags : List ToolCall) (tail : List StreamEvent) :
    ∀ s : AsmState,
      processStreamNew pick (frags.map mkToolEvent ++ tail) s =
        processStreamNew pick tail
          (frags.foldl (fun st d => stepToolCallDelta pick st 0 d) s) := by
  induction frags with
  | nil => intro s; rfl
  | cons d rest ih =>
    intro s
    rw [List.map_cons, List.cons_append, processStreamNew_cons_tool, ih, List.foldl_cons]

/-- The declared call at a slot after one more fragment: an id-bearing
fragment replaces the declaration, an id-less one leaves it unchanged. -/
def declCall (tc : ToolCall) (d : ToolCall) : ToolCall :=
  if d.id = "" then tc
  else { id := d.id, type := d.type,
         function := { name := d.function.name, arguments := d.function.arguments } }

/-- One fragment step on a single-declared-slot state: the map keeps
exactly one entry at slot 0 (replaced when the fragment bears an id) and
the accumulator grows by the fragment's argument text. -/
lemma stepToolCallDelta_single (pick : List (Nat × ToolCall) → List (Nat × ToolCall))
    (fc : String) (tc : ToolCall) (acc : String) (d : ToolCall) :
    stepToolCallDelta pick ⟨fc, [(0, tc)], argsEntry acc⟩ 0 d =
      ⟨fc, [(0, declCall tc d)], argsEntry (acc ++ d.function.arguments)⟩ := by
  have happend : d.function.arguments ≠ "" →
      appendArg (argsEntry acc) 0 d.function.arguments =
        argsEntry (acc ++ d.function.arguments) := by
    intro hd
    by_cases ha : acc = ""
    · subst ha
      simp [appendArg, argsEntry, goMapGet, goMapSet, String.empty_append, hd]
    · have hne : acc ++ d.function.arguments ≠ "" := by
        intro h
        exact ha (string_append_eq_empty.mp h).1
      simp [appendArg, argsEntry, goMapGet, goMapSet, ha, hne]
  by_cases hid : d.id = ""
  · by_cases hd : d.function.arguments = ""
    · simp [stepToolCallDelta, declCall, hid, hd, String.append_empty]
    · have hget : (goMapGet [(0, tc)] 0).isSome = true := rfl
      simp [stepToolCallDelta, declCall, hid, hd, hget, happend hd]
  · by_cases hd : d.function.arguments = ""
    · simp [stepToolCallDelta, declCall, hid, hd, goMapSet, String.append_empty]
    · simp [stepToolCallDelta, declCall, hid, hd, goMapSet, happend hd]

/-- First fragment of a run: an id-bearing fragment on the initial state
declares slot 0. -/
lemma stepToolCallDelta_init (pick : List (Nat × ToolCall) → List (Nat × ToolCall))
    (d : ToolCall) (hid : d.id ≠ "") :
    stepToolCallDelta pick initState 0 d =
      ⟨"", [(0, { id := d.id, type := d.type,
                  function := { name := d.function.name,
                                arguments := d.function.arguments } })],
        argsEntry d.function.arguments⟩ := by
  by_cases hd : d.function.arguments = ""
  · simp [stepToolCallDelta, initState, hid, hd, goMapSet, argsEntry]
  · simp [stepToolCallDelta, initState, hid, hd, goMapSet, argsEntry, appendArg,
      goMapGet, String.empty_append]

/-- Folding fragment steps over a single-declared-slot state keeps one
declared call at slot 0 and accumulates all fragment argument text in
arrival order. -/
lemma foldl_single_slot (pick : List (Nat × ToolCall) → List (Nat × ToolCall))
    (frags : List ToolCall) :
    ∀ (fc : String) (tc : ToolCall) (acc : String),
      frags.foldl (fun st d => stepToolCallDelta pick st 0 d) ⟨fc, [(0, tc)], argsEntry acc⟩ =
        ⟨fc, [(0, frags.foldl declCall tc)],
          argsEntry (frags.foldl (fun a d => a ++ d.function.arguments) acc)⟩ := by
  induction frags with
  | nil => exact fun fc tc acc => rfl
  | cons d rest ih =>
    intro fc tc acc
    rw [List.foldl_cons, stepToolCallDelta_single, ih, List.foldl_cons, List.foldl_cons]

/-- When the accumulated argument text of a fragment run is empty, the
finally-declared call's own argument field is empty as well. -/
lemma foldl_declCall_args_empty (frags : List ToolCall) :
    ∀ (tc : ToolCall) (acc : String),
      (acc = "" → tc.function.arguments = "") →
      frags.foldl (fun a d => a ++ d.function.arguments) acc = "" →
      (frags.foldl declCall tc).function.arguments = "" := by
  induction frags with
  | nil => exact fun tc acc hacc h => hacc h
  | cons d rest ih =>
    intro tc acc hacc h
    rw [List.foldl_cons] at h
    rw [List.foldl_cons]
    refine ih (declCall tc d) (acc ++ d.function.arguments) ?_ h
    intro hempty
    obtain ⟨ha, hd⟩ := string_append_eq_empty.mp hempty
    unfold declCall
    by_cases hid : d.id = ""
    · rw [if_pos hid]
      exact hacc ha
    · rw [if_neg hid]
      exact hd

/-- Finalizing a single-declared-slot state yields exactly one call whose
argument string is the accumulation, defaulted to the empty-object text
when the accumulation is empty — for every valid map-iteration order. -/
lemma finalize_single (pick : List (Nat × ToolCall) → List (Nat × ToolCall))
    (hpick : ValidPick pick) (fc : String) (tc : ToolCall) (acc : String)
    (hacc : acc = "" → tc.function.arguments = "") :
    finalizeToolCalls pick ⟨fc, [(0, tc)], argsEntry acc⟩ =
      [{ tc with function := { tc.function with
           arguments := if acc = "" then "\x7b\x7d" else acc } }] := by
  have hone : pick [(0, tc)] = [(0, tc)] := List.perm_singleton.mp (hpick [(0, tc)])
  by_cases ha : acc = ""
  · have htc := hacc ha
    simp [finalizeToolCalls, hone, argsEntry, ha, goMapGet, htc]
  · have hlen : 0 < acc.length := string_len_pos ha
    simp [finalizeToolCalls, hone, argsEntry, ha, goMapGet, hlen]

/-- Insertion order is a valid map-iteration order. -/
lemma validPick_idPick : ValidPick idPick := fun m => List.Perm.refl m

/-- Reverse insertion order is a valid map-iteration order. -/
lemma validPick_revPick : ValidPick revPick := fun m => List.reverse_perm m

/-! ## Claim theorems: assembler -/

/-- Claim C1 (amended): for a turn whose stream delivers N tool-call
fragments all addressed to slot 0, the first of which declares the slot
with a non-empty id, finalization emits exactly one ToolCall for the
slot — under every map-iteration order — and its argument string is the
concatenation, in arrival order, of all (non-empty) argument fragments
when that concatenation is non-empty, and the empty-object default
otherwise.  (The amendment adds the declared-slot premise and the
empty-object default; see the counterexample.) -/
theorem assembler_single_slot_concat
    (pick : List (Nat × ToolCall) → List (Nat × ToolCall)) (hpick : ValidPick pick)
    (f : ToolCall) (frags : List ToolCall) (hid : f.id ≠ "") :
    ∃ tc : ToolCall,
      processStreamNew pick ((f :: frags).map mkToolEvent ++ [finishEvent "tool_calls"])
          initState = .finished "" [tc] ∧
      tc.function.arguments =
        (if concatArgs (f :: frags) = "" then "\x7b\x7d" else concatArgs (f :: frags)) := by
  have hconcat : concatArgs (f :: frags) =
      frags.foldl (fun a d => a ++ d.function.arguments) f.function.arguments := by
    unfold concatArgs
    rw [List.foldl_cons, String.empty_append]
  set tcf : ToolCall :=
    { id := f.id, type := f.type,
      function := { name := f.function.name, arguments := f.function.arguments } } with htcf
  have hbase : f.function.arguments = "" → tcf.function.arguments = "" := fun h => h
  refine ⟨{ frags.foldl declCall tcf with
            function := { (frags.foldl declCall tcf).function with
              arguments := if concatArgs (f :: frags) = "" then "\x7b\x7d"
                           else concatArgs (f :: frags) } }, ?_, rfl⟩
  rw [List.map_cons, List.cons_append, processStreamNew_cons_tool,
    stepToolCallDelta_init pick f hid, ← htcf, processStreamNew_toolEvents,
    foldl_single_slot, processStreamNew_finish,
    finalize_single pick hpick _ _ _
      (foldl_declCall_args_empty frags tcf f.function.arguments hbase), hconcat]

/-- Counterexample to Claim C1 as stated: a single id-bearing fragment
with an empty argument fragment finalizes with argument string "\x7b\x7d"
(the empty-object default), which differs from the concatenation of the
non-empty argument fragments delivered to the slot (the empty string). -/
theorem assembler_single_slot_concat_counterexample :
    processStreamNew idPick
        ([mkToolEvent { id := "call_1", type := "function",
                        function := { name := "list_tools", arguments := "" } }] ++
          [finishEvent "tool_calls"]) initState =
      .finished ""
        [{ id := "call_1", type := "function",
           function := { name := "list_tools", arguments := "\x7b\x7d" } }] ∧
    concatArgs [{ id := "call_1", type := "function",
                  function := { name := "list_tools", arguments := "" } }] = "" ∧
    ("\x7b\x7d" : String) ≠ "" :=
  ⟨rfl, rfl, by decide⟩

/-- Witness for Claim C1 (amended): a declaring fragment carrying "ab"
followed by an id-less continuation carrying "cd". -/
theorem assembler_single_slot_concat_witness :
    ∃ tc : ToolCall,
      processStreamNew idPick
          (([{ id := "call_9", type := "function",
               function := { name := "read_file", arguments := "ab" } },
             { id := "", type := "",
               function := { name := "", arguments := "cd" } }].map mkToolEvent) ++
            [finishEvent "tool_calls"]) initState = .finished "" [tc] ∧
      tc.function.arguments =
        (if concatArgs
              [{ id := "call_9", type := "function",
                 function := { name := "read_file", arguments := "ab" } },
               { id := "", type := "",
                 function := { name := "", arguments := "cd" } }] = "" then "\x7b\x7d"
         else concatArgs
              [{ id := "call_9", type := "function",
                 function := { name := "read_file", arguments := "ab" } },
               { id := "", type := "",
                 function := { name := "", arguments := "cd" } }]) :=
  assembler_single_slot_concat idPick validPick_idPick _ _ (by decide)

/-- Claim C2 (amended): when two id-bearing fragments arrive at the same
slot within one turn, the LAST-seen id wins — the later fragment's
ToolCall replaces the slot's declaration (id, type and name), while the
slot's argument accumulator persists across the replacement, so the
finalized call carries the second fragment's identity with the
concatenated arguments of both.  (The claim's first-seen-id tie-break and
its name-based condition do not occur in the code: the name fallback
applies only to id-less fragments at unseen slots; see the
counterexample.) -/
theorem assembler_last_id_wins
    (pick : List (Nat × ToolCall) → List (Nat × ToolCall)) (hpick : ValidPick pick)
    (f g : ToolCall) (hf : f.id ≠ "") (hg : g.id ≠ "") :
    processStreamNew pick [mkToolEvent f, mkToolEvent g, finishEvent "tool_calls"]
        initState =
      .finished ""
        [{ id := g.id, type := g.type,
           function := { name := g.function.name,
                         arguments :=
                           if f.function.arguments ++ g.function.arguments = ""
                           then "\x7b\x7d"
                           else f.function.arguments ++ g.function.arguments } }] := by
  have hdecl : declCall
      { id := f.id, type := f.type,
        function := { name := f.function.name, arguments := f.function.arguments } } g =
      { id := g.id, type := g.type,
        function := { name := g.function.name, arguments := g.function.arguments } } := by
    unfold declCall
    rw [if_neg hg]
  have hacc : f.function.arguments ++ g.function.arguments = "" →
      ({ id := g.id, type := g.type,
         function := { name := g.function.name,
                       arguments := g.function.arguments } } : ToolCall).function.arguments
        = "" :=
    fun h => (string_append_eq_empty.mp h).2
  rw [processStreamNew_cons_tool, stepToolCallDelta_init pick f hf,
    processStreamNew_cons_tool, stepToolCallDelta_single, hdecl,
    processStreamNew_finish, finalize_single pick hpick _ _ _ hacc]

/-- Counterexample to Claim C2 as stated: two id-bearing fragments `a`
then `b` at the same slot, with the same function name (so the claim
requires the finalized call to keep the first id `a`); the code finalizes
the slot with the second id `b`. -/
theorem assembler_last_id_wins_counterexample :
    processStreamNew idPick
        [mkToolEvent { id := "a", type := "function",
                       function := { name := "alpha", arguments := "x" } },
         mkToolEvent { id := "b", type := "function",
                       function := { name := "alpha", arguments := "y" } },
         finishEvent "tool_calls"] initState =
      .finished ""
        [{ id := "b", type := "function",
           function := { name := "alpha", arguments := "xy" } }] ∧
    ("b" : String) ≠ "a" :=
  ⟨rfl, by decide⟩

/-- Witness for Claim C2 (amended) at two concrete id-bearing fragments. -/
theorem assembler_last_id_wins_witness :
    processStreamNew idPick
        [mkToolEvent { id := "a", type := "function",
                       function := { name := "alpha", arguments := "x1" } },
         mkToolEvent { id := "b", type := "function",
                       function := { name := "beta", arguments := "y2" } },
         finishEvent "tool_calls"] initState =
      .finished ""
        [{ id := "b", type := "function",
           function := { name := "beta",
                         arguments :=
                           if ("x1" : String) ++ "y2" = "" then "\x7b\x7d"
                           else ("x1" : String) ++ "y2" } }] :=
  assembler_last_id_wins idPick validPick_idPick _ _ (by decide) (by decide)

/-! ## Iteration-order independence lemmas -/

/-- An id-bearing fragment's step never consults the map-iteration
order. -/
lemma stepToolCallDelta_pick_indep
    (pick1 pick2 : List (Nat × ToolCall) → List (Nat × ToolCall))
    (s : AsmState) (idx : Nat) (d : ToolCall) (hid : d.id ≠ "") :
    stepToolCallDelta pick1 s idx d = stepToolCallDelta pick2 s idx d := by
  simp [stepToolCallDelta, hid]

/-- A fragment loop of id-bearing fragments never consults the
map-iteration order. -/
lemma stepToolCallsFrom_pick_indep
    (pick1 pick2 : List (Nat × ToolCall) → List (Nat × ToolCall)) (ci : Nat) :
    ∀ (ds : List ToolCall) (i : Nat) (s : AsmState),
      (∀ d ∈ ds, d.id ≠ "") →
      stepToolCallsFrom pick1 ci i ds s = stepToolCallsFrom pick2 ci i ds s := by
  intro ds
  induction ds with
  | nil => intro i s _; rfl
  | cons d rest ih =>
    intro i s hds
    simp only [stepToolCallsFrom]
    rw [stepToolCallDelta_pick_indep pick1 pick2 s (ci * 100 + i) d
      (hds d (List.mem_cons_self d rest))]
    exact ih (i + 1) _ (fun d' h' => hds d' (List.mem_cons_of_mem d h'))

/-- Finalizations of the same state under two valid iteration orders are
permutations of each other. -/
lemma finalize_perm (pick1 pick2 : List (Nat × ToolCall) → List (Nat × ToolCall))
    (h1 : ValidPick pick1) (h2 : ValidPick pick2) (s : AsmState) :
    List.Perm (finalizeToolCalls pick1 s) (finalizeToolCalls pick2 s) := by
  unfold finalizeToolCalls
  exact (List.Perm.map _ (h1 s.toolCallsByIndex)).trans
    (List.Perm.map _ (h2 s.toolCallsByIndex)).symm

/-- Finalizing the empty state yields no calls under any valid iteration
order. -/
lemma finalize_init (pick : List (Nat × ToolCall) → List (Nat × ToolCall))
    (hpick : ValidPick pick) :
    finalizeToolCalls pick initState = [] := by
  unfold finalizeToolCalls initState
  rw [List.Perm.eq_nil (hpick [])]
  rfl

/-! ## Claim theorems: assembler determinism and quiet streams -/

/-- Claim C3 (amended): the finalized ToolCall list's emission order is
not well-defined — finalization ranges over a Go map — so two runs of the
assembler on the same delta sequence agree only up to permutation of the
finalized list.  Under the premise that every fragment carries an id (so
the name-based fallback scan, which also ranges over the map, is never
consulted), two runs with any two valid iteration orders produce the same
outcome kind, identical accumulated content, and finalized lists that are
permutations of each other. -/
theorem assembler_deterministic_up_to_order
    (pick1 pick2 : List (Nat × ToolCall) → List (Nat × ToolCall))
    (h1 : ValidPick pick1) (h2 : ValidPick pick2)
    (events : List StreamEvent)
    (hids : ∀ e ∈ events, eventAllIdBearing e = true) :
    ResultPerm (processStreamNew pick1 events initState)
               (processStreamNew pick2 events initState) := by
  have aux : ∀ (evs : List StreamEvent) (s : AsmState),
      (∀ e ∈ evs, eventAllIdBearing e = true) →
      ResultPerm (processStreamNew pick1 evs s) (processStreamNew pick2 evs s) := by
    intro evs
    induction evs with
    | nil => intro s _; rfl
    | cons e rest ih =>
      intro s hq
      have he := hq e (List.mem_cons_self e rest)
      have hrest : ∀ e' ∈ rest, eventAllIdBearing e' = true :=
        fun e' h' => hq e' (List.mem_cons_of_mem e h')
      rcases e with ⟨herr, hdata⟩
      cases herr with
      | true => exact trivial
      | false =>
        cases hdata with
        | none => exact ih s hrest
        | some resp =>
          rcases resp with ⟨choices⟩
          cases choices with
          | nil => exact ih s hrest
          | cons choice rcs =>
            have hfr : ∀ d ∈ choice.delta.toolCalls, d.id ≠ "" := by
              simp only [eventAllIdBearing, List.all_eq_true, Bool.not_eq_eq_eq_not,
                Bool.not_true, beq_eq_false_iff_ne, ne_eq] at he
              exact he
            have hs2 := stepToolCallsFrom_pick_indep pick1 pick2 choice.index
              choice.delta.toolCalls 0 (stepContent s choice.delta.content) hfr
            simp only [processStreamNew, Bool.false_eq_true, if_false]
            rw [hs2]
            split_ifs with hfin
            · exact ⟨rfl, finalize_perm pick1 pick2 h1 h2 _⟩
            · exact ih _ hrest
  exact aux events initState hids

/-- Counterexample to Claim C3 as stated: one delta declaring two slots.
Visiting the map in insertion order and in reverse insertion order — both
valid Go map-iteration behaviours — produces the two finalized lists in
opposite orders, so two runs on the same delta sequence need not produce
identical ToolCall lists. -/
def c3Event : StreamEvent :=
  let tcA : ToolCall :=
    { id := "a", type := "function",
      function := { name := "alpha", arguments := "x" } }
  let tcB : ToolCall :=
    { id := "b", type := "function",
      function := { name := "beta", arguments := "y" } }
  let choice : Choice :=
    { index := 0, delta := { content := "", toolCalls := [tcA, tcB] },
      finishReason := "tool_calls" }
  { hasError := false, data := some { choices := [choice] } }

/-- Counterexample theorem for Claim C3: the two runs emit the two
declared calls in different orders. -/
theorem assembler_deterministic_up_to_order_counterexample :
    processStreamNew idPick [c3Event] initState =
      .finished ""
        [{ id := "a", type := "function",
           function := { name := "alpha", arguments := "x" } },
         { id := "b", type := "function",
           function := { name := "beta", arguments := "y" } }] ∧
    processStreamNew revPick [c3Event] initState =
      .finished ""
        [{ id := "b", type := "function",
           function := { name := "beta", arguments := "y" } },
         { id := "a", type := "function",
           function := { name := "alpha", arguments := "x" } }] ∧
    processStreamNew idPick [c3Event] initState ≠
      processStreamNew revPick [c3Event] initState :=
  ⟨rfl, rfl, by decide⟩

/-- Witness for Claim C3 (amended) at the concrete two-slot delta. -/
theorem assembler_deterministic_up_to_order_witness :
    ResultPerm (processStreamNew idPick [c3Event] initState)
               (processStreamNew revPick [c3Event] initState) :=
  assembler_deterministic_up_to_order idPick revPick validPick_idPick validPick_revPick
    [c3Event] (by decide)

/-- Claim C8: a stream delivering zero content fragments and zero
tool-call fragments — whether it ends with a terminal reason or simply
ends — completes the turn by returning a plain finished output with empty
accumulated content and an empty finalized call list (so no pending calls
are stored), never the error outcome; the event loop is a total function
of the finite event list, so it cannot hang. -/
theorem stream_quiet_finishes_plain
    (pick : List (Nat × ToolCall) → List (Nat × ToolCall)) (hpick : ValidPick pick)
    (events : List StreamEvent)
    (hq : ∀ e ∈ events, quietEvent e = true) :
    processStreamNew pick events initState = .finished "" [] ∨
    processStreamNew pick events initState = .endedNoFinish "" := by
  have aux : ∀ (evs : List StreamEvent),
      (∀ e ∈ evs, quietEvent e = true) →
      processStreamNew pick evs initState = .finished "" [] ∨
      processStreamNew pick evs initState = .endedNoFinish "" := by
    intro evs
    induction evs with
    | nil => intro _; right; rfl
    | cons e rest ih =>
      intro hq'
      have he := hq' e (List.mem_cons_self e rest)
      have hrest : ∀ e' ∈ rest, quietEvent e' = true :=
        fun e' h' => hq' e' (List.mem_cons_of_mem e h')
      rcases e with ⟨herr, hdata⟩
      cases herr with
      | true => simp [quietEvent] at he
      | false =>
        cases hdata with
        | none => exact ih hrest
        | some resp =>
          rcases resp with ⟨choices⟩
          cases choices with
          | nil => exact ih hrest
          | cons choice rcs =>
            rcases choice with ⟨ci, ⟨cont, tcs⟩, fin⟩
            simp only [quietEvent, Bool.not_false, Bool.true_and] at he
            obtain ⟨hcont, htcs⟩ : cont = "" ∧ tcs = [] :=
              ⟨eq_of_beq (Bool.and_elim_left he),
               List.isEmpty_iff.mp (Bool.and_elim_right he)⟩
            subst hcont
            subst htcs
            simp only [processStreamNew, Bool.false_eq_true, if_false]
            have hstep : stepToolCallsFrom pick ci 0 [] (stepContent initState "") =
                initState := rfl
            rw [hstep]
            split_ifs with hfin
            · left
              rw [finalize_init pick hpick]
              rfl
            · exact ih hrest
  exact aux events hq

/-- Witness for Claim C8: a stream consisting of one normally-terminated
empty delta. -/
theorem stream_quiet_finishes_plain_witness :
    processStreamNew idPick [finishEvent "stop"] initState = .finished "" [] ∨
    processStreamNew idPick [finishEvent "stop"] initState = .endedNoFinish "" :=
  stream_quiet_finishes_plain idPick validPick_idPick [finishEvent "stop"] (by decide)

end Ashron
